import Mathlib

/-!
# Verification of the SNILS checksum validator and extractor (`main.py`)

Shallow embedding of `SNILSValidator` from `src/main.py`:

* `validate_checksum`  — the checksum check on an 11-digit string;
* `extract_snils_from_text` — the two-pattern regex scan with
  normalization, optional checksum filtering and deduplication;
* `get_snils_from_file` / `get_snils_from_url` — the error-handling
  structure of the file and URL entry points.

Text is modelled as `List Char`.  The regular expressions
`SNILS_PATTERN` and `SNILS_ALTERNATIVE_PATTERN` are embedded as a
deterministic parser (`matchCore`) together with a left-to-right
non-overlapping scan (`scanAux`) reproducing `re.finditer`.  The
patterns consist of fixed-length digit groups and optional one-character
separator classes whose characters are never digits, so greedy
backtracking can never resurrect a failed parse: the deterministic
parser is exactly equivalent to the regex engine's behaviour.
-/

namespace SNILS

/-- ASCII digit test, `'0' ≤ c ≤ '9'`, modelling the `\d` class and
`str.isdigit` on the ASCII inputs this program handles. -/
def isDigitChar (c : Char) : Bool := c.isDigit

/-- Numeric value of a digit character (`int(digit)`). -/
def digitVal (c : Char) : Nat := c.toNat - 48

/-- The characters matched by the regex `\s` class on Python `str`
(ASCII whitespace, the separator control codes, and the Unicode space
characters). -/
def pySpaceChars : List Char :=
  [' ', '\t', '\n', '\r', '\x0b', '\x0c',
   '\x1c', '\x1d', '\x1e', '\x1f', '\x85', '\xa0',
   ' ', ' ', ' ', ' ', ' ', ' ',
   ' ', ' ', ' ', ' ', ' ', ' ',
   ' ', ' ', ' ', ' ', '　']

/-- Whitespace test (`\s`). -/
def isSpacePy (c : Char) : Bool := pySpaceChars.contains c

/-- Separator class `[-\s]` of `SNILS_PATTERN`. -/
def isSep1 (c : Char) : Bool := c == '-' || isSpacePy c

/-- Separator class `[-—\s]` of `SNILS_ALTERNATIVE_PATTERN`
(adds the em dash). -/
def isSep2 (c : Char) : Bool := c == '-' || c == '—' || isSpacePy c

/-- `str.isdigit`: nonempty and every character a digit. -/
def strIsDigit (s : List Char) : Bool := !s.isEmpty && s.all isDigitChar

/-- `int()` applied to a digit string. -/
def digitsToNat (s : List Char) : Nat := s.foldl (fun a c => a * 10 + digitVal c) 0

/-- The weighted sum `total += int(digit) * (10 - i)` for `i` counting
from 1: the argument `w` is the weight `10 - i` of the current digit. -/
def weightedTotalAux : List Char → Nat → Nat
  | [], _ => 0
  | c :: rest, w => digitVal c * w + weightedTotalAux rest (w - 1)

/-- Weighted digit sum of a body, first digit weighted 9. -/
def weightedTotal (body : List Char) : Nat := weightedTotalAux body 9

/-- `SNILSValidator.validate_checksum` from `main.py`. -/
def validate_checksum (snils : List Char) : Bool :=
  if !strIsDigit snils || snils.length != 11 then false
  else
    let number_part := snils.take 9
    let checksum := digitsToNat (snils.drop 9)
    let total := weightedTotal number_part
    if total < 100 then checksum == total
    else if total == 100 || total == 101 then checksum == 0
    else
      let remainder := total % 101
      if remainder == 100 then checksum == 0
      else checksum == remainder

/-- Expected checksum of a 9-digit body, following the spec's wording:
`total` when `total < 100`, `0` when `total` is 100 or 101, otherwise
`total mod 101` with a remainder of 100 collapsed to 0. -/
def expectedChecksum (body : List Char) : Nat :=
  let total := weightedTotal body
  if total < 100 then total
  else if total == 100 || total == 101 then 0
  else if total % 101 == 100 then 0
  else total % 101

/-- Rendering of a checksum value as exactly two digits, with a leading
zero below 10. -/
def renderTwo (n : Nat) : List Char :=
  [Char.ofNat (48 + n / 10), Char.ofNat (48 + n % 10)]

/-! ## The extractor

`SNILS_PATTERN` and `SNILS_ALTERNATIVE_PATTERN` differ only in their
separator class, so the parser below is parameterised by it.  The
pattern is `(?<!\d)(\d{3})sep?(\d{3})sep?(\d{3})sep?(\d{2})(?!\d)`:
every group has a fixed digit count and each optional separator is a
single non-digit character, so the regex engine's greedy backtracking
cannot change the outcome (retrying an optional separator as empty makes
the following `\d` land on that separator character and fail at once);
the deterministic parse below is therefore exact. -/

/-- One regex match: absolute start offset, the matched substring, and
the four capture groups. -/
structure RawMatch where
  start : Nat
  span : List Char
  g1 : List Char
  g2 : List Char
  g3 : List Char
  g4 : List Char
  deriving Repr, DecidableEq

/-- Read exactly `n` digit characters (`\d{n}`). -/
def readDigits : Nat → List Char → Option (List Char × List Char)
  | 0, cs => some ([], cs)
  | _ + 1, [] => none
  | n + 1, c :: cs =>
    if isDigitChar c then
      match readDigits n cs with
      | some (ds, rest) => some (c :: ds, rest)
      | none => none
    else none

/-- Read an optional single separator character (`sep?`, greedy). -/
def readSep (isSep : Char → Bool) : List Char → Option Char × List Char
  | [] => (none, [])
  | c :: cs => if isSep c then (some c, cs) else (none, c :: cs)

/-- True when the negative lookahead `(?!\d)` fails, i.e. the remaining
input starts with a digit. -/
def headIsDigit : List Char → Bool
  | [] => false
  | c :: _ => isDigitChar c

/-- Attempt the pattern at the head of `cs` (the `(?<!\d)` lookbehind is
checked by the caller).  Returns the match (with `start := 0`, fixed up
by the scanner) and the unconsumed rest of the input. -/
def matchCore (isSep : Char → Bool) (cs : List Char) : Option (RawMatch × List Char) :=
  match readDigits 3 cs with
  | none => none
  | some (g1, r1) =>
    match readSep isSep r1 with
    | (s1, r2) =>
      match readDigits 3 r2 with
      | none => none
      | some (g2, r3) =>
        match readSep isSep r3 with
        | (s2, r4) =>
          match readDigits 3 r4 with
          | none => none
          | some (g3, r5) =>
            match readSep isSep r5 with
            | (s3, r6) =>
              match readDigits 2 r6 with
              | none => none
              | some (g4, r7) =>
                if headIsDigit r7 then none
                else
                  some ({ start := 0,
                          span := g1 ++ s1.toList ++ g2 ++ s2.toList ++
                                  g3 ++ s3.toList ++ g4,
                          g1 := g1, g2 := g2, g3 := g3, g4 := g4 }, r7)

/-- `re.finditer`: left-to-right scan for non-overlapping matches.
`prevIsDigit` records whether the character before the current position
is a digit (the `(?<!\d)` lookbehind); `pos` is the absolute offset of
the head of `cs`.  `fuel` only bounds the recursion; `scan` passes the
input length, which always suffices since every step consumes at least
one character. -/
def scanAux (isSep : Char → Bool) : Nat → Bool → Nat → List Char → List RawMatch
  | 0, _, _, _ => []
  | _ + 1, _, _, [] => []
  | fuel + 1, prevIsDigit, pos, c :: rest =>
    if prevIsDigit then scanAux isSep fuel (isDigitChar c) (pos + 1) rest
    else
      match matchCore isSep (c :: rest) with
      | some (m, rest') =>
        { m with start := pos } ::
          scanAux isSep fuel true (pos + m.span.length) rest'
      | none => scanAux isSep fuel (isDigitChar c) (pos + 1) rest

/-- All matches of one pattern over a text, in scan order. -/
def scan (isSep : Char → Bool) (text : List Char) : List RawMatch :=
  scanAux isSep text.length false 0 text

/-- The normalized digit-only form `f"{group1}{group2}{group3}{checksum}"`. -/
def normalizedOf (m : RawMatch) : List Char := m.g1 ++ m.g2 ++ m.g3 ++ m.g4

/-- The canonical display form `f"{group1}-{group2}-{group3} {checksum}"`. -/
def formatMatch (m : RawMatch) : List Char :=
  m.g1 ++ '-' :: (m.g2 ++ '-' :: (m.g3 ++ ' ' :: m.g4))

/-- The body of the double loop in `extract_snils_from_text`: process
the matches in order, skipping normalized duplicates, filtering by
checksum when `validate` is set, and recording emitted normalized forms
in `found`. -/
def processMatches (validate : Bool) : List RawMatch → List (List Char) →
    List (List Char × List Char)
  | [], _ => []
  | m :: ms, found =>
    let normalized := normalizedOf m
    if found.contains normalized then processMatches validate ms found
    else if !validate || validate_checksum normalized then
      (m.span, formatMatch m) :: processMatches validate ms (normalized :: found)
    else processMatches validate ms found

/-- `SNILSValidator.extract_snils_from_text`: run `SNILS_PATTERN` over
the whole text, then `SNILS_ALTERNATIVE_PATTERN`, deduplicating across
both passes. -/
def extract_snils_from_text (text : List Char) (validate : Bool) :
    List (List Char × List Char) :=
  processMatches validate (scan isSep1 text ++ scan isSep2 text) []

/-! ## File and URL entry points

`get_snils_from_file` and `get_snils_from_url` wrap the extractor in
`try/except` blocks.  The I/O collaborators (filesystem, HTTP stack)
are modelled by the outcome they deliver; each `except` branch of the
Python code becomes a non-`ok` outcome constructor.  Every failure
branch prints a message and returns the empty list. -/

/-- Outcome delivered by the filesystem collaborator. -/
inductive FileOutcome
  | ok (content : List Char)
  | notFound
  | readError
  deriving Repr, DecidableEq

/-- `SNILSValidator.get_snils_from_file`: unsupported suffixes return
`[]` without reading; `.txt` files are read and scanned (checksum
validation on, the Python default); `FileNotFoundError` and any other
exception return `[]`. -/
def get_snils_from_file (suffixIsTxt : Bool) (outcome : FileOutcome) :
    List (List Char × List Char) :=
  if suffixIsTxt then
    match outcome with
    | .ok content => extract_snils_from_text content true
    | .notFound => []
    | .readError => []
  else []

/-- Outcome delivered by the HTTP collaborator (`requests.get` plus
`raise_for_status`); one constructor per `except` branch. -/
inductive HttpOutcome
  | ok (body : List Char)
  | connectionError
  | timeout
  | httpError
  | requestError
  | unexpectedError
  deriving Repr, DecidableEq

/-- One step of `re.sub(r'<[^>]+>', ' ', _)`: at a `'<'`, a maximal
nonempty run of non-`'>'` characters followed by `'>'` is replaced by a
single space. -/
def stripTagsAux : Nat → List Char → List Char
  | 0, cs => cs
  | _ + 1, [] => []
  | fuel + 1, c :: rest =>
    if c = '<' then
      let run := rest.takeWhile (fun x => x ≠ '>')
      if !run.isEmpty && (rest.drop run.length).head? == some '>' then
        ' ' :: stripTagsAux fuel (rest.drop (run.length + 1))
      else c :: stripTagsAux fuel rest
    else c :: stripTagsAux fuel rest

/-- `re.sub(r'<[^>]+>', ' ', _)` over the whole input.  The fuel, set to
the input length, always suffices: every step consumes at least one
character. -/
def stripTags (cs : List Char) : List Char := stripTagsAux cs.length cs

/-- `html.unescape`, modelled for the predefined XML entities
(`&amp;`, `&lt;`, `&gt;`, `&quot;`, `&#39;`); the Python function
additionally knows the full HTML5 named- and numeric-entity tables,
which nothing in this development exercises. -/
def htmlUnescape : List Char → List Char
  | [] => []
  | '&' :: 'a' :: 'm' :: 'p' :: ';' :: rest => '&' :: htmlUnescape rest
  | '&' :: 'l' :: 't' :: ';' :: rest => '<' :: htmlUnescape rest
  | '&' :: 'g' :: 't' :: ';' :: rest => '>' :: htmlUnescape rest
  | '&' :: 'q' :: 'u' :: 'o' :: 't' :: ';' :: rest => '"' :: htmlUnescape rest
  | '&' :: '#' :: '3' :: '9' :: ';' :: rest => '\'' :: htmlUnescape rest
  | c :: rest => c :: htmlUnescape rest

/-- Split on whitespace runs, dropping empty words (`str.split()`). -/
def splitWs (cs : List Char) : List (List Char) :=
  (cs.splitOnP isSpacePy).filter (fun w => !w.isEmpty)

/-- `' '.join(text.split())`: collapse whitespace runs to single
spaces and trim the ends. -/
def collapseWs (cs : List Char) : List Char :=
  List.intercalate [' '] (splitWs cs)

/-- `SNILSValidator._extract_text_from_html`: strip tags, unescape
entities, collapse whitespace. -/
def extractTextFromHtml (html_content : List Char) : List Char :=
  collapseWs (htmlUnescape (stripTags html_content))

/-- `SNILSValidator.get_snils_from_url`: on a successful fetch the page
text is scanned (checksum validation on); every `except` branch returns
`[]`. -/
def get_snils_from_url (outcome : HttpOutcome) : List (List Char × List Char) :=
  match outcome with
  | .ok body => extract_snils_from_text (extractTextFromHtml body) true
  | .connectionError => []
  | .timeout => []
  | .httpError => []
  | .requestError => []
  | .unexpectedError => []

/-! ## Auxiliary definitions for the claims -/

/-- The body `"112233445"` with checksum `95` written with the same
single boundary character `c` at all three group boundaries. -/
def sepTemplate (c : Char) : List Char :=
  '1' :: '1' :: '2' :: c :: '2' :: '3' :: '3' :: c :: '4' :: '4' :: '5' :: c :: '9' :: '5' :: []

/-- Well-formedness of a raw match: the groups have the regex's digit
counts, the normalized form is all digits, and the digits of the
matched span are exactly the normalized form. -/
def WFMatch (m : RawMatch) : Prop :=
  m.g1.length = 3 ∧ m.g2.length = 3 ∧ m.g3.length = 3 ∧ m.g4.length = 2 ∧
  (normalizedOf m).all isDigitChar = true ∧
  m.span.filter isDigitChar = normalizedOf m ∧
  11 ≤ m.span.length

/-! ## Basic lemmas about the checksum engine -/

theorem validate_iff_expected (s : List Char) (h11 : s.length = 11)
    (hd : s.all isDigitChar = true) :
    validate_checksum s = true ↔ digitsToNat (s.drop 9) = expectedChecksum (s.take 9) := by
  have hne : s.isEmpty = false := by
    cases s with
    | nil => simp at h11
    | cons a t => rfl
  simp only [validate_checksum, expectedChecksum, strIsDigit, hne, hd, h11]
  norm_num
  split_ifs <;> exact Iff.rfl

theorem expectedChecksum_le_99 (body : List Char) : expectedChecksum body ≤ 99 := by
  simp only [expectedChecksum]
  split_ifs with h1 h2 h3 <;> try omega
  · have : weightedTotal body % 101 < 101 := Nat.mod_lt _ (by omega)
    simp only [beq_iff_eq] at h3
    omega

theorem isDigitChar_ofDigit (d : Nat) (hd : d ≤ 9) :
    isDigitChar (Char.ofNat (48 + d)) = true := by
  interval_cases d <;> decide

theorem digitVal_ofDigit (d : Nat) (hd : d ≤ 9) :
    digitVal (Char.ofNat (48 + d)) = d := by
  interval_cases d <;> decide

theorem renderTwo_all_digits (n : Nat) (h : n ≤ 99) :
    (renderTwo n).all isDigitChar = true := by
  have h1 : n / 10 ≤ 9 := by omega
  have h2 : n % 10 ≤ 9 := by omega
  simp [renderTwo, isDigitChar_ofDigit _ h1, isDigitChar_ofDigit _ h2]

theorem digitsToNat_renderTwo (n : Nat) (h : n ≤ 99) :
    digitsToNat (renderTwo n) = n := by
  have h1 : n / 10 ≤ 9 := by omega
  have h2 : n % 10 ≤ 9 := by omega
  simp [renderTwo, digitsToNat, digitVal_ofDigit _ h1, digitVal_ofDigit _ h2]
  omega

theorem renderTwo_length (n : Nat) : (renderTwo n).length = 2 := rfl

/-! ## Lemmas about the pattern parser and the scanner -/

theorem isSep1_imp_isSep2 (c : Char) (h : isSep1 c = true) : isSep2 c = true := by
  simp only [isSep1, Bool.or_eq_true] at h
  simp only [isSep2, Bool.or_eq_true]
  tauto

theorem isSep2_not_digit (c : Char) (h : isSep2 c = true) : isDigitChar c = false := by
  have hall : ∀ x ∈ ('-' :: '—' :: pySpaceChars), isDigitChar x = false := by decide
  apply hall
  simp only [isSep2, Bool.or_eq_true, beq_iff_eq] at h
  simp only [List.mem_cons]
  rcases h with (h | h) | h
  · exact Or.inl h
  · exact Or.inr (Or.inl h)
  · have hm : c ∈ pySpaceChars := by simpa [isSpacePy] using h
    exact Or.inr (Or.inr hm)

theorem isSep1_not_digit (c : Char) (h : isSep1 c = true) : isDigitChar c = false :=
  isSep2_not_digit c (isSep1_imp_isSep2 c h)

theorem readDigits_spec : ∀ (n : Nat) (cs ds rest : List Char),
    readDigits n cs = some (ds, rest) →
    ds.length = n ∧ ds.all isDigitChar = true ∧ cs = ds ++ rest := by
  intro n
  induction n with
  | zero =>
    intro cs ds rest h
    simp only [readDigits, Option.some.injEq, Prod.mk.injEq] at h
    obtain ⟨rfl, rfl⟩ := h
    simp
  | succ k ih =>
    intro cs ds rest h
    cases cs with
    | nil => simp [readDigits] at h
    | cons c cs' =>
      simp only [readDigits] at h
      by_cases hd : isDigitChar c
      · rw [if_pos hd] at h
        cases hr : readDigits k cs' with
        | none => rw [hr] at h; simp at h
        | some p =>
          obtain ⟨ds', rest'⟩ := p
          rw [hr] at h
          simp only [Option.some.injEq, Prod.mk.injEq] at h
          obtain ⟨rfl, rfl⟩ := h
          obtain ⟨h1, h2, h3⟩ := ih cs' ds' rest' hr
          refine ⟨by simp [h1], ?_, by simp [h3]⟩
          simp only [List.all_cons, h2, hd, Bool.and_self]
      · rw [if_neg hd] at h; simp at h

theorem readSep_spec (isSep : Char → Bool) (cs : List Char) (o : Option Char)
    (rest : List Char) (h : readSep isSep cs = (o, rest)) :
    cs = o.toList ++ rest ∧ ∀ c, o = some c → isSep c = true := by
  cases cs with
  | nil =>
    simp only [readSep, Prod.mk.injEq] at h
    obtain ⟨rfl, rfl⟩ := h
    simp
  | cons c cs' =>
    simp only [readSep] at h
    by_cases hs : isSep c
    · rw [if_pos hs] at h
      simp only [Prod.mk.injEq] at h
      obtain ⟨rfl, rfl⟩ := h
      exact ⟨rfl, fun d hd => by cases hd; exact hs⟩
    · rw [if_neg hs] at h
      simp only [Prod.mk.injEq] at h
      obtain ⟨rfl, rfl⟩ := h
      simp

theorem sepToList_no_digits (isSep : Char → Bool)
    (hsep : ∀ c, isSep c = true → isDigitChar c = false)
    (o : Option Char) (ho : ∀ c, o = some c → isSep c = true) :
    o.toList.filter isDigitChar = [] := by
  cases o with
  | none => rfl
  | some c =>
    simp only [Option.toList, List.filter, hsep c (ho c rfl)]

theorem matchCore_spec (isSep : Char → Bool)
    (hsep : ∀ c, isSep c = true → isDigitChar c = false)
    (cs : List Char) (m : RawMatch) (rest : List Char)
    (h : matchCore isSep cs = some (m, rest)) :
    WFMatch m ∧ cs = m.span ++ rest := by
  unfold matchCore at h
  cases h1 : readDigits 3 cs with
  | none => rw [h1] at h; simp at h
  | some p1 =>
  obtain ⟨g1, r1⟩ := p1
  rw [h1] at h
  simp only at h
  cases hs1 : readSep isSep r1 with
  | mk o1 r2 =>
  rw [hs1] at h
  simp only at h
  cases h2 : readDigits 3 r2 with
  | none => rw [h2] at h; simp at h
  | some p2 =>
  obtain ⟨g2, r3⟩ := p2
  rw [h2] at h
  simp only at h
  cases hs2 : readSep isSep r3 with
  | mk o2 r4 =>
  rw [hs2] at h
  simp only at h
  cases h3 : readDigits 3 r4 with
  | none => rw [h3] at h; simp at h
  | some p3 =>
  obtain ⟨g3, r5⟩ := p3
  rw [h3] at h
  simp only at h
  cases hs3 : readSep isSep r5 with
  | mk o3 r6 =>
  rw [hs3] at h
  simp only at h
  cases h4 : readDigits 2 r6 with
  | none => rw [h4] at h; simp at h
  | some p4 =>
  obtain ⟨g4, r7⟩ := p4
  rw [h4] at h
  simp only at h
  by_cases hla : headIsDigit r7
  · rw [if_pos hla] at h; simp at h
  · rw [if_neg hla] at h
    simp only [Option.some.injEq, Prod.mk.injEq] at h
    obtain ⟨rfl, rfl⟩ := h
    obtain ⟨hl1, ha1, he1⟩ := readDigits_spec 3 cs g1 r1 h1
    obtain ⟨he1', hsep1⟩ := readSep_spec isSep r1 o1 r2 hs1
    obtain ⟨hl2, ha2, he2⟩ := readDigits_spec 3 r2 g2 r3 h2
    obtain ⟨he2', hsep2⟩ := readSep_spec isSep r3 o2 r4 hs2
    obtain ⟨hl3, ha3, he3⟩ := readDigits_spec 3 r4 g3 r5 h3
    obtain ⟨he3', hsep3⟩ := readSep_spec isSep r5 o3 r6 hs3
    obtain ⟨hl4, ha4, he4⟩ := readDigits_spec 2 r6 g4 r7 h4
    have hf1 : g1.filter isDigitChar = g1 :=
      List.filter_eq_self.mpr (by simpa using ha1)
    have hf2 : g2.filter isDigitChar = g2 :=
      List.filter_eq_self.mpr (by simpa using ha2)
    have hf3 : g3.filter isDigitChar = g3 :=
      List.filter_eq_self.mpr (by simpa using ha3)
    have hf4 : g4.filter isDigitChar = g4 :=
      List.filter_eq_self.mpr (by simpa using ha4)
    have hfo1 := sepToList_no_digits isSep hsep o1 hsep1
    have hfo2 := sepToList_no_digits isSep hsep o2 hsep2
    have hfo3 := sepToList_no_digits isSep hsep o3 hsep3
    refine ⟨⟨hl1, hl2, hl3, hl4, ?_, ?_, ?_⟩, ?_⟩
    · simp only [normalizedOf, List.all_append, ha1, ha2, ha3, ha4, Bool.and_self]
    · simp only [normalizedOf, List.filter_append, hf1, hf2, hf3, hf4,
        hfo1, hfo2, hfo3, List.append_nil, List.nil_append]
    · simp only [List.length_append, hl1, hl2, hl3, hl4]
      omega
    · rw [he1, he1', he2, he2', he3, he3', he4]
      simp [List.append_assoc]

theorem scanAux_spec (isSep : Char → Bool)
    (hsep : ∀ c, isSep c = true → isDigitChar c = false) :
    ∀ (fuel : Nat) (prev : Bool) (pos : Nat) (cs : List Char),
      (∀ m ∈ scanAux isSep fuel prev pos cs, WFMatch m ∧ pos ≤ m.start) ∧
      (scanAux isSep fuel prev pos cs).Pairwise (fun a b => a.start < b.start) := by
  intro fuel
  induction fuel with
  | zero => intro prev pos cs; simp [scanAux]
  | succ k ih =>
    intro prev pos cs
    cases cs with
    | nil => simp [scanAux]
    | cons c rest =>
      simp only [scanAux]
      by_cases hp : prev = true
      · rw [if_pos hp]
        obtain ⟨ihmem, ihpw⟩ := ih (isDigitChar c) (pos + 1) rest
        exact ⟨fun m hm => ⟨(ihmem m hm).1, by have := (ihmem m hm).2; omega⟩, ihpw⟩
      · rw [if_neg hp]
        cases hm : matchCore isSep (c :: rest) with
        | none =>
          obtain ⟨ihmem, ihpw⟩ := ih (isDigitChar c) (pos + 1) rest
          exact ⟨fun m hm => ⟨(ihmem m hm).1, by have := (ihmem m hm).2; omega⟩, ihpw⟩
        | some p =>
          obtain ⟨m, rest'⟩ := p
          obtain ⟨hwf, _⟩ := matchCore_spec isSep hsep (c :: rest) m rest' hm
          obtain ⟨ihmem, ihpw⟩ := ih true (pos + m.span.length) rest'
          have hwf' : WFMatch { m with start := pos } := hwf
          have hlen : 11 ≤ m.span.length := hwf.2.2.2.2.2.2
          constructor
          · intro m' hm'
            rcases List.mem_cons.mp hm' with rfl | hm'
            · exact ⟨hwf', Nat.le_refl _⟩
            · obtain ⟨h1, h2⟩ := ihmem m' hm'
              exact ⟨h1, by omega⟩
          · refine List.pairwise_cons.mpr ⟨fun m' hm' => ?_, ihpw⟩
            have := (ihmem m' hm').2
            simp only
            omega

theorem list_contains_iff (l : List (List Char)) (a : List Char) :
    l.contains a = true ↔ a ∈ l := by
  simp

theorem filter_formatMatch (m : RawMatch) (hm : WFMatch m) :
    (formatMatch m).filter isDigitChar = normalizedOf m := by
  obtain ⟨_, _, _, _, hall, _, _⟩ := hm
  simp only [normalizedOf, List.all_append, Bool.and_eq_true] at hall
  obtain ⟨⟨⟨ha1, ha2⟩, ha3⟩, ha4⟩ := hall
  have hf1 : m.g1.filter isDigitChar = m.g1 := List.filter_eq_self.mpr (by simpa using ha1)
  have hf2 : m.g2.filter isDigitChar = m.g2 := List.filter_eq_self.mpr (by simpa using ha2)
  have hf3 : m.g3.filter isDigitChar = m.g3 := List.filter_eq_self.mpr (by simpa using ha3)
  have hf4 : m.g4.filter isDigitChar = m.g4 := List.filter_eq_self.mpr (by simpa using ha4)
  simp only [formatMatch, normalizedOf, List.filter_append, List.filter_cons,
    hf1, hf2, hf3, hf4]
  norm_num [isDigitChar]
  simp [List.append_assoc]

theorem processMatches_sublist (v : Bool) :
    ∀ (ms : List RawMatch) (found : List (List Char)),
      (processMatches v ms found).Sublist (ms.map fun m => (m.span, formatMatch m)) := by
  intro ms
  induction ms with
  | nil => intro found; simp [processMatches]
  | cons m ms ih =>
    intro found
    simp only [processMatches, List.map_cons]
    split_ifs with h1 h2
    · exact (ih found).cons _
    · exact (ih _).cons₂ _
    · exact (ih found).cons _

theorem processMatches_mem (v : Bool) :
    ∀ (ms : List RawMatch) (found : List (List Char)) (p : List Char × List Char),
      p ∈ processMatches v ms found →
      ∃ m, m ∈ ms ∧ p = (m.span, formatMatch m) ∧
        (v = true → validate_checksum (normalizedOf m) = true) := by
  intro ms
  induction ms with
  | nil => intro found p h; simp [processMatches] at h
  | cons m ms ih =>
    intro found p h
    simp only [processMatches] at h
    split_ifs at h with h1 h2
    · obtain ⟨m', hm', hp, hv⟩ := ih _ _ h
      exact ⟨m', List.mem_cons_of_mem _ hm', hp, hv⟩
    · rcases List.mem_cons.mp h with rfl | h'
      · refine ⟨m, List.mem_cons_self _ _, rfl, fun hv => ?_⟩
        rw [hv] at h2
        simpa using h2
      · obtain ⟨m', hm', hp, hv⟩ := ih _ _ h'
        exact ⟨m', List.mem_cons_of_mem _ hm', hp, hv⟩
    · obtain ⟨m', hm', hp, hv⟩ := ih _ _ h
      exact ⟨m', List.mem_cons_of_mem _ hm', hp, hv⟩

theorem processMatches_nodup (v : Bool) :
    ∀ (ms : List RawMatch) (found : List (List Char)), (∀ m ∈ ms, WFMatch m) →
      ((processMatches v ms found).map (fun p => p.2.filter isDigitChar)).Nodup ∧
      ∀ p ∈ processMatches v ms found, p.2.filter isDigitChar ∉ found := by
  intro ms
  induction ms with
  | nil => intro found _; simp [processMatches]
  | cons m ms ih =>
    intro found hwf
    have hwfm := hwf m (List.mem_cons_self _ _)
    have hwfms : ∀ m' ∈ ms, WFMatch m' := fun m' hm' => hwf m' (List.mem_cons_of_mem _ hm')
    simp only [processMatches]
    split_ifs with h1 h2
    · exact ih found hwfms
    · obtain ⟨ihnd, ihnotin⟩ := ih (normalizedOf m :: found) hwfms
      constructor
      · simp only [List.map_cons, List.nodup_cons]
        refine ⟨?_, ihnd⟩
        rw [filter_formatMatch m hwfm]
        intro hmem
        obtain ⟨p, hp, hkey⟩ := List.mem_map.mp hmem
        have hni := ihnotin p hp
        rw [hkey] at hni
        exact hni (List.mem_cons_self _ _)
      · intro p hp
        rcases List.mem_cons.mp hp with rfl | hp'
        · simp only [filter_formatMatch m hwfm]
          intro hin
          exact h1 ((list_contains_iff found (normalizedOf m)).mpr hin)
        · have hni := ihnotin p hp'
          exact fun hin => hni (List.mem_cons_of_mem _ hin)
    · exact ih found hwfms

/-! ## Lemmas about all-digit runs (no match inside a longer digit string) -/

theorem readDigits_of_all (n : Nat) : ∀ (cs : List Char),
    cs.all isDigitChar = true → n ≤ cs.length →
    readDigits n cs = some (cs.take n, cs.drop n) := by
  induction n with
  | zero => intro cs _ _; simp [readDigits]
  | succ k ih =>
    intro cs hall hlen
    cases cs with
    | nil => simp at hlen
    | cons c rest =>
      simp only [List.all_cons, Bool.and_eq_true] at hall
      simp only [readDigits, if_pos hall.1,
        ih rest hall.2 (by simpa using hlen)]
      simp

theorem digit_not_sep (isSep : Char → Bool)
    (hsep : ∀ c, isSep c = true → isDigitChar c = false)
    (c : Char) (hd : isDigitChar c = true) : isSep c = false := by
  cases hs : isSep c with
  | false => rfl
  | true => rw [hsep c hs] at hd; exact absurd hd (by simp)

theorem mem_of_mem_drop {cs : List Char} {n : Nat} {c : Char}
    (h : c ∈ cs.drop n) : c ∈ cs := List.drop_subset n cs h

theorem all_drop (cs : List Char) (n : Nat) (h : cs.all isDigitChar = true) :
    (cs.drop n).all isDigitChar = true := by
  simp only [List.all_eq_true] at h ⊢
  exact fun c hc => h c (mem_of_mem_drop hc)

theorem readSep_of_digits (isSep : Char → Bool)
    (hsep : ∀ c, isSep c = true → isDigitChar c = false)
    (cs : List Char) (hall : cs.all isDigitChar = true) :
    readSep isSep cs = (none, cs) := by
  cases cs with
  | nil => rfl
  | cons c rest =>
    simp only [List.all_cons, Bool.and_eq_true] at hall
    simp [readSep, digit_not_sep isSep hsep c hall.1]

theorem headIsDigit_of_all (cs : List Char) (hall : cs.all isDigitChar = true)
    (hne : cs ≠ []) : headIsDigit cs = true := by
  cases cs with
  | nil => exact absurd rfl hne
  | cons c rest =>
    simp only [List.all_cons, Bool.and_eq_true] at hall
    simpa [headIsDigit] using hall.1

theorem matchCore_long_digits (isSep : Char → Bool)
    (hsep : ∀ c, isSep c = true → isDigitChar c = false)
    (cs : List Char) (hall : cs.all isDigitChar = true) (hlen : 12 ≤ cs.length) :
    matchCore isSep cs = none := by
  have h3 : readDigits 3 cs = some (cs.take 3, cs.drop 3) :=
    readDigits_of_all 3 cs hall (by omega)
  have ha3 : (cs.drop 3).all isDigitChar = true := all_drop cs 3 hall
  have hl3 : (cs.drop 3).length = cs.length - 3 := by simp
  have hs3 : readSep isSep (cs.drop 3) = (none, cs.drop 3) :=
    readSep_of_digits isSep hsep _ ha3
  have h6 : readDigits 3 (cs.drop 3) = some ((cs.drop 3).take 3, (cs.drop 3).drop 3) :=
    readDigits_of_all 3 _ ha3 (by omega)
  have hd6 : (cs.drop 3).drop 3 = cs.drop 6 := by rw [List.drop_drop]
  have ha6 : (cs.drop 6).all isDigitChar = true := all_drop cs 6 hall
  have hs6 : readSep isSep (cs.drop 6) = (none, cs.drop 6) :=
    readSep_of_digits isSep hsep _ ha6
  have h9 : readDigits 3 (cs.drop 6) = some ((cs.drop 6).take 3, (cs.drop 6).drop 3) :=
    readDigits_of_all 3 _ ha6 (by simp; omega)
  have hd9 : (cs.drop 6).drop 3 = cs.drop 9 := by rw [List.drop_drop]
  have ha9 : (cs.drop 9).all isDigitChar = true := all_drop cs 9 hall
  have hs9 : readSep isSep (cs.drop 9) = (none, cs.drop 9) :=
    readSep_of_digits isSep hsep _ ha9
  have h11 : readDigits 2 (cs.drop 9) = some ((cs.drop 9).take 2, (cs.drop 9).drop 2) :=
    readDigits_of_all 2 _ ha9 (by simp; omega)
  have hd11 : (cs.drop 9).drop 2 = cs.drop 11 := by rw [List.drop_drop]
  have hne11 : cs.drop 11 ≠ [] := by
    intro hcon
    have := congrArg List.length hcon
    simp at this
    omega
  have hhd : headIsDigit (cs.drop 11) = true :=
    headIsDigit_of_all _ (all_drop cs 11 hall) hne11
  unfold matchCore
  simp only [h3, hs3, h6, hd6, hs6, h9, hd9, hs9, h11, hd11, hhd]
  simp

theorem scanAux_all_digits (isSep : Char → Bool) :
    ∀ (fuel : Nat) (pos : Nat) (cs : List Char), cs.all isDigitChar = true →
      scanAux isSep fuel true pos cs = [] := by
  intro fuel
  induction fuel with
  | zero => intro pos cs _; simp [scanAux]
  | succ k ih =>
    intro pos cs hall
    cases cs with
    | nil => simp [scanAux]
    | cons c rest =>
      simp only [List.all_cons, Bool.and_eq_true] at hall
      simp only [scanAux, if_pos rfl, hall.1]
      exact ih (pos + 1) rest hall.2

theorem scan_long_digits (isSep : Char → Bool)
    (hsep : ∀ c, isSep c = true → isDigitChar c = false)
    (cs : List Char) (hall : cs.all isDigitChar = true) (hlen : 12 ≤ cs.length) :
    scan isSep cs = [] := by
  unfold scan
  cases cs with
  | nil => simp at hlen
  | cons c rest =>
    have hall' := hall
    simp only [List.all_cons, Bool.and_eq_true] at hall'
    have hmc : matchCore isSep (c :: rest) = none :=
      matchCore_long_digits isSep hsep _ hall hlen
    simp only [List.length_cons, scanAux, if_neg (by simp : ¬(false = true)), hmc,
      hall'.1]
    exact scanAux_all_digits isSep _ _ rest hall'.2

/-! ## Claims C1–C3: the checksum engine -/

/-- C1: for every 11-character digit string `s`, `validate_checksum s`
is true iff the integer value of the last two digits equals the expected
checksum of the first nine (weighted sum, weights 9 down to 1, taken as
`total` below 100, as 0 at 100 or 101, otherwise `total % 101` with 100
collapsed to 0); the body `"112233445"` has expected checksum 95, so
`"11223344595"` is valid and `"11223344500"` is not. -/
theorem C1_validate_checksum_iff_expected :
    (∀ s : List Char, s.length = 11 → s.all isDigitChar = true →
      (validate_checksum s = true ↔
        digitsToNat (s.drop 9) = expectedChecksum (s.take 9)))
    ∧ expectedChecksum ("112233445".data) = 95
    ∧ validate_checksum ("11223344595".data) = true
    ∧ validate_checksum ("11223344500".data) = false :=
  ⟨validate_iff_expected, by decide, by decide, by decide⟩

theorem C1_witness :
    validate_checksum ("11223344595".data) = true ↔
      digitsToNat (("11223344595".data).drop 9) =
        expectedChecksum (("11223344595".data).take 9) :=
  C1_validate_checksum_iff_expected.1 _ (by decide) (by decide)

/-- C2: for every 9-digit body, the expected checksum lies in `[0, 99]`
and appending its two-digit rendering (leading zero below 10) yields an
11-digit string accepted by `validate_checksum`. -/
theorem C2_roundtrip :
    ∀ body : List Char, body.length = 9 → body.all isDigitChar = true →
      expectedChecksum body ≤ 99 ∧
      (renderTwo (expectedChecksum body)).length = 2 ∧
      validate_checksum (body ++ renderTwo (expectedChecksum body)) = true := by
  intro body h9 hd
  have hle := expectedChecksum_le_99 body
  refine ⟨hle, renderTwo_length _, ?_⟩
  have hlen : (body ++ renderTwo (expectedChecksum body)).length = 11 := by
    simp [renderTwo, h9]
  have hall : (body ++ renderTwo (expectedChecksum body)).all isDigitChar = true := by
    simp only [List.all_append, hd, renderTwo_all_digits _ hle, Bool.and_self]
  rw [validate_iff_expected _ hlen hall, List.drop_left' h9, List.take_left' h9,
    digitsToNat_renderTwo _ hle]

theorem C2_witness :
    expectedChecksum ("112233445".data) ≤ 99 ∧
    (renderTwo (expectedChecksum ("112233445".data))).length = 2 ∧
    validate_checksum ("112233445".data ++ renderTwo (expectedChecksum ("112233445".data))) = true :=
  C2_roundtrip _ (by decide) (by decide)

/-- C3: for every 9-digit body and every two-digit value `c` in
`[0, 99]`, the identifier `body ++ c` is accepted iff `c` is the
expected checksum; any other `c` is rejected, so exactly one two-digit
checksum is accepted per body. -/
theorem C3_unique_checksum :
    ∀ body : List Char, body.length = 9 → body.all isDigitChar = true →
      ∀ c : Nat, c ≤ 99 →
        (validate_checksum (body ++ renderTwo c) = true ↔ c = expectedChecksum body) ∧
        (c ≠ expectedChecksum body → validate_checksum (body ++ renderTwo c) = false) := by
  intro body h9 hd c hc
  have hlen : (body ++ renderTwo c).length = 11 := by simp [renderTwo, h9]
  have hall : (body ++ renderTwo c).all isDigitChar = true := by
    simp only [List.all_append, hd, renderTwo_all_digits _ hc, Bool.and_self]
  have hiff : validate_checksum (body ++ renderTwo c) = true ↔ c = expectedChecksum body := by
    rw [validate_iff_expected _ hlen hall, List.drop_left' h9, List.take_left' h9,
      digitsToNat_renderTwo _ hc]
  refine ⟨hiff, fun hne => ?_⟩
  cases hv : validate_checksum (body ++ renderTwo c) with
  | false => rfl
  | true => exact absurd (hiff.mp hv) hne

theorem C3_witness :
    (validate_checksum ("112233445".data ++ renderTwo 0) = true ↔
      0 = expectedChecksum ("112233445".data)) ∧
    validate_checksum ("112233445".data ++ renderTwo 0) = false :=
  ⟨(C3_unique_checksum _ (by decide) (by decide) 0 (by decide)).1,
   (C3_unique_checksum _ (by decide) (by decide) 0 (by decide)).2 (by decide)⟩

/-! ## Claims C4–C6: the matching rule -/

/-- C4 counterexample: the 22-digit input `"1122334459512345678901"`
(two 11-digit identifiers concatenated with no separating character),
scanned with validation disabled, does not yield two candidates: the
negative lookarounds `(?<!\d)` and `(?!\d)` reject every alignment
inside the longer digit run, so the extraction yields nothing. -/
theorem C4_counterexample :
    (extract_snils_from_text ("1122334459512345678901".data) false).length ≠ 2 := by
  decide

/-- C4 amended: a run of 12 or more digits yields no candidates at all —
in particular two 11-digit identifiers written directly one after the
other with no separating character are not extracted (the digit-adjacency
lookarounds reject them), rather than being extracted as two
candidates. -/
theorem C4_adjacent_digits :
    ∀ (s : List Char) (v : Bool), 12 ≤ s.length → s.all isDigitChar = true →
      extract_snils_from_text s v = [] := by
  intro s v hlen hall
  unfold extract_snils_from_text
  rw [scan_long_digits isSep1 isSep1_not_digit s hall hlen,
      scan_long_digits isSep2 isSep2_not_digit s hall hlen]
  rfl

theorem C4_witness :
    extract_snils_from_text ("1122334459512345678901".data) false = [] :=
  C4_adjacent_digits _ false (by decide) (by decide)

/-- C5 counterexample: in the text
`"112—233—445 95 156-789-123 07"` the em-dash identifier occurs first
(offset 0) and the hyphen identifier later (offset 15), yet the result
lists the hyphen identifier first: the primary pattern (which knows no
em dash) is run over the whole text before the alternative pattern, so
the output is not in left-to-right order of first occurrence. -/
theorem C5_counterexample :
    extract_snils_from_text ("112—233—445 95 156-789-123 07".data) false =
      [("156-789-123 07".data, "156-789-123 07".data),
       ("112—233—445 95".data, "112-233-445 95".data)] := by
  decide

/-- C5 amended: results come from two sequential passes — all matches of
the hyphen/space pattern (in strictly increasing position order), then
the matches of the em-dash pattern (also in strictly increasing
position order), deduplicated across the two passes — so left-to-right
order holds within each pass but not across passes. -/
theorem C5_two_pass_order :
    ∀ (text : List Char) (v : Bool),
      ((scan isSep1 text).map RawMatch.start).Pairwise (· < ·) ∧
      ((scan isSep2 text).map RawMatch.start).Pairwise (· < ·) ∧
      (extract_snils_from_text text v).Sublist
        ((scan isSep1 text ++ scan isSep2 text).map fun m => (m.span, formatMatch m)) := by
  intro text v
  refine ⟨?_, ?_, processMatches_sublist v _ _⟩
  · exact List.pairwise_map.mpr (scanAux_spec isSep1 isSep1_not_digit _ _ _ _).2
  · exact List.pairwise_map.mpr (scanAux_spec isSep2 isSep2_not_digit _ _ _ _).2

theorem sep1_template_accept (c : Char) (hs : isSep1 c = true) :
    extract_snils_from_text (sepTemplate c) false =
      [(sepTemplate c, "112-233-445 95".data)] := by
  have hs2 := isSep1_imp_isSep2 c hs
  have hd := isSep1_not_digit c hs
  simp +decide [extract_snils_from_text, scan, sepTemplate, scanAux, matchCore, readDigits,
    readSep, headIsDigit, hs, hs2, hd, processMatches, normalizedOf, formatMatch]

theorem nonsep_template_reject (c : Char) (hd : isDigitChar c = false)
    (hs : isSep2 c = false) :
    extract_snils_from_text (sepTemplate c) false = [] := by
  have hs1 : isSep1 c = false := by
    cases h : isSep1 c with
    | false => rfl
    | true => rw [isSep1_imp_isSep2 c h] at hs; exact absurd hs (by simp)
  simp +decide [extract_snils_from_text, scan, sepTemplate, scanAux, matchCore, readDigits,
    readSep, headIsDigit, hs, hs1, hd, processMatches]

theorem isSep2_em_dash (c : Char) (h2 : isSep2 c = true) (h1 : isSep1 c = false) :
    c = '—' := by
  simp only [isSep1, Bool.or_eq_false_iff] at h1
  simp only [isSep2, Bool.or_eq_true, beq_iff_eq] at h2
  rcases h2 with (h | h) | h
  · rw [h, show (('-' : Char) == '-') = true from rfl] at h1
    exact absurd h1.1 (by simp)
  · exact h
  · rw [h] at h1
    exact absurd h1.2 (by simp)

/-- C6 counterexample: a tab character at every boundary is accepted —
`"112\t233\t445\t95"` matches and is extracted as one candidate — even
though the claim's separator set {hyphen, space, em dash} would make it
a non-match: the patterns use the whitespace class `\s`, which also
matches tab, newline and the other whitespace characters. -/
theorem C6_counterexample :
    (extract_snils_from_text ("112\t233\t445\t95".data) false).length = 1 := by
  decide

/-- C6 amended: each inter-group boundary may be empty or hold a single
character from the separator class: hyphen, em dash (the alternative
pattern), or any regex-whitespace character — space, tab, newline,
carriage return and the rest of the `\s` class — not only hyphen, space
and em dash.  Any other non-digit boundary character prevents the
match, as does a separator where a digit is expected or a run of 10 or
fewer digits. -/
theorem C6_separator_boundary :
    (∀ c : Char, isDigitChar c = false →
      extract_snils_from_text (sepTemplate c) false =
        if isSep2 c then [(sepTemplate c, "112-233-445 95".data)] else []) ∧
    extract_snils_from_text ("123-45-678 90".data) false = [] ∧
    isSep2 '\t' = true ∧ isSep2 '\n' = true ∧ isSep2 ' ' = true ∧
    isSep2 '-' = true ∧ isSep2 '—' = true ∧ isSep1 '—' = false ∧
    isSep2 'a' = false ∧ isSep2 ':' = false := by
  refine ⟨?_, by decide, by decide, by decide, by decide, by decide, by decide,
    by decide, by decide, by decide⟩
  intro c hd
  by_cases h2 : isSep2 c = true
  · rw [if_pos (by simp [h2])]
    by_cases h1 : isSep1 c = true
    · exact sep1_template_accept c h1
    · have hc : c = '—' := isSep2_em_dash c h2 (by simpa using h1)
      subst hc
      decide
  · rw [if_neg (by simpa using h2)]
    exact nonsep_template_reject c hd (by simpa using h2)

theorem C6_witness :
    extract_snils_from_text (sepTemplate '\n') false =
      (if isSep2 '\n' then [(sepTemplate '\n', "112-233-445 95".data)] else []) :=
  C6_separator_boundary.1 '\n' (by decide)

/-! ## Claims C7–C8: error handling -/

/-- C7 counterexample: `validate_checksum` returns the same ordinary
`false` for a malformed input (here a 9-character body, not an
11-character identifier) as for a well-formed identifier whose checksum
mismatches; no distinct input-error signal exists in its type or its
behaviour. -/
theorem C7_counterexample :
    validate_checksum ("123456789".data) = validate_checksum ("11223344500".data) ∧
    validate_checksum ("123456789".data) = false := by
  constructor <;> decide

/-- C7 amended: `validate_checksum` returns `false` — the same value as
for a checksum mismatch — whenever its input is not exactly 11 digit
characters; it signals no distinct input error.  (The `ValueError`-raising
`compute_snils_checksum` exercised by `tests.py` belongs to a different
variant of `main.py` that is not the one shipped.) -/
theorem C7_malformed_returns_false :
    ∀ s : List Char, s.length ≠ 11 ∨ s.all isDigitChar = false →
      validate_checksum s = false := by
  intro s hs
  simp only [validate_checksum, strIsDigit]
  rcases hs with h | h
  · simp [h]
  · simp [h]

theorem C7_witness : validate_checksum ("1122334459a".data) = false :=
  C7_malformed_returns_false _ (Or.inr (by decide))

/-- C8 counterexample: an unavailable source (file not found, HTTP
timeout) produces exactly the same return value — the empty list — as
an available source in which no candidates were found, so the caller
cannot distinguish the two from the result. -/
theorem C8_counterexample :
    get_snils_from_file true FileOutcome.notFound =
      get_snils_from_file true (FileOutcome.ok []) ∧
    get_snils_from_url HttpOutcome.timeout =
      get_snils_from_url (HttpOutcome.ok ("no numbers here".data)) := by
  constructor <;> rfl

/-- C8 amended: every failure branch of the file- and URL-based entry
points (file missing, unsupported format, read error, connection error,
timeout, HTTP error status, other request errors, unexpected errors)
returns the empty list, the same value as an available source with no
candidates; the distinction is made only in printed messages, not in
the returned result. -/
theorem C8_errors_return_empty :
    (∀ (b : Bool) (o : FileOutcome), (∀ content, o ≠ FileOutcome.ok content) →
      get_snils_from_file b o = []) ∧
    (∀ o : HttpOutcome, (∀ body, o ≠ HttpOutcome.ok body) →
      get_snils_from_url o = []) := by
  constructor
  · intro b o ho
    cases o with
    | ok content => exact absurd rfl (ho content)
    | notFound => cases b <;> rfl
    | readError => cases b <;> rfl
  · intro o ho
    cases o with
    | ok body => exact absurd rfl (ho body)
    | connectionError => rfl
    | timeout => rfl
    | httpError => rfl
    | requestError => rfl
    | unexpectedError => rfl

theorem C8_witness : get_snils_from_file true FileOutcome.readError = [] :=
  C8_errors_return_empty.1 true FileOutcome.readError (fun _ h => by cases h)

/-! ## Claims C9–C10: totality and result invariants -/

/-- C9: extraction is total — for every input text and either value of
the validation flag it returns a (possibly empty) list of results;
there is no input on which it fails.  (In this embedding
`extract_snils_from_text` is a total computable function; the Python
function's scan, group access, string formatting and set operations
raise on no `str` input.) -/
theorem C9_extract_total :
    ∀ (text : List Char) (v : Bool),
      ∃ r : List (List Char × List Char), extract_snils_from_text text v = r :=
  fun _ _ => ⟨_, rfl⟩

/-- C10: in every returned list the normalized digit forms of the
entries are pairwise distinct; every entry's display form is exactly
`XXX-XXX-XXX YY` with the same digits, in order, as the matched
original substring; and with validation enabled every entry's
normalized 11-digit form passes `validate_checksum`. -/
theorem C10_result_invariants :
    ∀ (text : List Char) (v : Bool),
      (((extract_snils_from_text text v).map fun p => p.2.filter isDigitChar).Nodup) ∧
      ∀ p ∈ extract_snils_from_text text v,
        ∃ a b c d : List Char,
          a.length = 3 ∧ b.length = 3 ∧ c.length = 3 ∧ d.length = 2 ∧
          (a ++ b ++ c ++ d).all isDigitChar = true ∧
          p.2 = a ++ '-' :: (b ++ '-' :: (c ++ ' ' :: d)) ∧
          p.1.filter isDigitChar = a ++ b ++ c ++ d ∧
          (v = true → validate_checksum (a ++ b ++ c ++ d) = true) := by
  intro text v
  have hall : ∀ m ∈ scan isSep1 text ++ scan isSep2 text, WFMatch m := by
    intro m hm
    rcases List.mem_append.mp hm with h | h
    · exact ((scanAux_spec isSep1 isSep1_not_digit _ _ _ _).1 m h).1
    · exact ((scanAux_spec isSep2 isSep2_not_digit _ _ _ _).1 m h).1
  constructor
  · exact (processMatches_nodup v _ [] hall).1
  · intro p hp
    obtain ⟨m, hm, rfl, hv⟩ := processMatches_mem v _ [] p hp
    obtain ⟨h1, h2, h3, h4, h5, h6, _⟩ := hall m hm
    exact ⟨m.g1, m.g2, m.g3, m.g4, h1, h2, h3, h4, h5, rfl, h6, hv⟩

theorem C10_witness :
    ∃ a b c d : List Char,
      a.length = 3 ∧ b.length = 3 ∧ c.length = 3 ∧ d.length = 2 ∧
      (a ++ b ++ c ++ d).all isDigitChar = true ∧
      ("112-233-445 95".data) = a ++ '-' :: (b ++ '-' :: (c ++ ' ' :: d)) ∧
      ("112-233-445 95".data).filter isDigitChar = a ++ b ++ c ++ d ∧
      (true = true → validate_checksum (a ++ b ++ c ++ d) = true) :=
  (C10_result_invariants ("112-233-445 95".data) true).2
    (("112-233-445 95".data), ("112-233-445 95".data)) (by decide)

end SNILS
